import Mathlib

/-!
# Verification of the BandcampDownloader (Go port) core

A shallow embedding of the core data model and operations of the
`handiism/BandcampDownloader` Go repository, together with theorems checking
the natural-language specification against the code.

Embedding conventions:
* Go pointers become `Option`; `nil` is `none`.
* Go `float64` configuration values and arithmetic on them are modelled
  over `ℚ` with the exact decimal values of the source literals.
* Go `time.Time` is modelled by its calendar components (`GoTime`); the Go
  zero value `time.Time{}` formats as year 1, January 1.
* Strings are processed as `List Char`; the regular expressions of the
  source are embedded as explicit scanners with RE2 leftmost / lazy / greedy
  semantics specialised to the concrete patterns of the source.
* Effectful operations (HTTP, filesystem) become explicit environments of
  outcome oracles; concurrency in the download manager is modelled by
  sequential traversal (no claim below depends on event interleaving).
-/

namespace BandcampDL

/-! ## Go model package: `internal/model` -/

/-- Model of Go `time.Time` restricted to its calendar date components.
The Go zero value `time.Time{}` is year 1, January 1. -/
structure GoTime where
  year : Int
  month : Int
  day : Int
deriving DecidableEq, Repr

/-- The Go zero value `time.Time{}` (the "unknown" date). -/
def GoTime.zero : GoTime := ⟨1, 1, 1⟩

/-- Model of `model.Track` (`internal/model/track.go`): the metadata fields.
The `Album` back-reference and the computed `Path` are not part of any claim
and are omitted; the filename sanitizer used by path computation is embedded
separately as `SanitizeFileName`. -/
structure Track where
  number : Int
  title : String
  duration : ℚ
  lyrics : String
  mp3URL : String
deriving DecidableEq, Repr

/-- Model of `model.Album` (`internal/model/album.go`): the metadata fields
and the track list.  The computed `Path`/`ArtworkPath`/`PlaylistPath` fields
are not part of any claim and are omitted. -/
structure Album where
  artist : String
  title : String
  artworkURL : String
  releaseDate : GoTime
  tracks : List Track
deriving DecidableEq, Repr

/-- Model of `Album.HasArtwork`. -/
def Album.hasArtwork (a : Album) : Bool := a.artworkURL ≠ ""

/-! ## Go dto package: `internal/bandcamp/dto` -/

/-- Model of `dto.JSONMp3File`. -/
structure JSONMp3File where
  url : String
deriving DecidableEq, Repr

/-- Model of `dto.JSONTrack`.  A Go `*JSONMp3File` pointer becomes an
`Option`; `none` models the absent `file` reference. -/
structure JSONTrack where
  duration : ℚ
  file : Option JSONMp3File
  lyrics : String
  number : Option Int
  title : String
deriving DecidableEq, Repr

/-- Model of `dto.JSONAlbumData` (the nested `current` record). -/
structure JSONAlbumData where
  albumTitle : String
  releaseDate : Option GoTime
  publishDate : Option GoTime
deriving DecidableEq, Repr

/-- Model of `dto.JSONAlbum`. -/
structure JSONAlbum where
  albumData : Option JSONAlbumData
  artID : Option Int
  artist : String
  releaseDate : Option GoTime
  tracks : List JSONTrack
deriving DecidableEq, Repr

/-- Left-pad a string with `'0'` up to width `w` (Go `%0wd` padding body). -/
def padZeros (w : Nat) (s : String) : String :=
  ⟨List.replicate (w - s.length) '0' ++ s.toList⟩

/-- Go `fmt.Sprintf("%010d", n)`: zero-padded to total width 10, the sign
counting towards the width. -/
def sprintfPad10 (n : Int) : String :=
  if n < 0 then "-" ++ padZeros 9 (toString n.natAbs) else padZeros 10 (toString n.natAbs)

/-- `artworkURLStart`/`artworkURLEnd` constants of `json_album.go`. -/
def artworkURLStart : String := "https://f4.bcbits.com/img/a"

def artworkURLEnd : String := "_0.jpg"

/-- The URL-protocol repair of `JSONTrack.ToTrack`: a URL starting with the
protocol-relative `//` gets `"http:"` prepended. -/
def fixMp3URL (u : String) : String :=
  if "//".isPrefixOf u then "http:" ++ u else u

/-- Model of `JSONTrack.ToTrack`.  In the source this dereferences
`jt.File.URL`; it is only invoked on records whose `file` is present, and the
model supplies `""` for the (never-taken) absent case. -/
def JSONTrack.toTrack (jt : JSONTrack) : Track :=
  { number := jt.number.getD 1
    title := jt.title
    duration := jt.duration
    lyrics := jt.lyrics
    mp3URL := fixMp3URL ((jt.file.map JSONMp3File.url).getD "") }

/-- The release-date fallback chain of `JSONAlbum.ToAlbum`
(`json_album.go` lines 75-83): top-level date, else nested declared release
date, else nested publish date, else the zero value. -/
def JSONAlbum.resolveReleaseDate (ja : JSONAlbum) : GoTime :=
  match ja.releaseDate with
  | some d => d
  | none =>
    match ja.albumData with
    | none => GoTime.zero
    | some ad =>
      match ad.releaseDate with
      | some d => d
      | none =>
        match ad.publishDate with
        | some d => d
        | none => GoTime.zero

/-- The artwork-URL synthesis of `JSONAlbum.ToAlbum`:
`fmt.Sprintf("%s%010d%s", artworkURLStart, *ja.ArtID, artworkURLEnd)`
when an id is present, otherwise the empty string. -/
def JSONAlbum.artworkURL (ja : JSONAlbum) : String :=
  match ja.artID with
  | some a => artworkURLStart ++ sprintfPad10 a ++ artworkURLEnd
  | none => ""

/-- The track-conversion loop of `JSONAlbum.ToAlbum`: appending the
converted track for every record whose `file` is present, in source order. -/
def toAlbumTrackLoop (jts : List JSONTrack) : List Track :=
  jts.foldl (fun acc jt => if jt.file.isSome then acc ++ [jt.toTrack] else acc) []

/-- Model of `JSONAlbum.ToAlbum` (`json_album.go`). -/
def JSONAlbum.toAlbum (ja : JSONAlbum) : Album :=
  { artist := ja.artist
    title := (ja.albumData.map JSONAlbumData.albumTitle).getD ""
    artworkURL := ja.artworkURL
    releaseDate := ja.resolveReleaseDate
    tracks := toAlbumTrackLoop ja.tracks }

/-- The release-date resolution as the spec's words state it (claim C2):
first non-empty among top-level date, nested declared date, nested publish
date; otherwise the unknown (zero) date. -/
def specResolvedDate (ja : JSONAlbum) : GoTime :=
  ((ja.releaseDate.orElse fun _ => (ja.albumData.bind JSONAlbumData.releaseDate)).orElse
    fun _ => (ja.albumData.bind JSONAlbumData.publishDate)).getD GoTime.zero

/-! ### Lemmas about the track loop -/

theorem toAlbumTrackLoop_foldl (jts : List JSONTrack) (acc : List Track) :
    jts.foldl (fun acc jt => if jt.file.isSome then acc ++ [jt.toTrack] else acc) acc
      = acc ++ (jts.filter (fun jt => jt.file.isSome)).map JSONTrack.toTrack := by
  induction jts generalizing acc with
  | nil => simp
  | cons jt rest ih =>
    by_cases h : jt.file.isSome
    · simp [List.foldl_cons, h, ih]
    · simp [List.foldl_cons, h, ih]

theorem toAlbumTrackLoop_eq (jts : List JSONTrack) :
    toAlbumTrackLoop jts = (jts.filter (fun jt => jt.file.isSome)).map JSONTrack.toTrack := by
  simpa using toAlbumTrackLoop_foldl jts []

/-! ### Claim C1 -/

/-- **C1.** For every decoded album record, `ToAlbum` keeps exactly the track
records carrying a file reference, converted in their original relative
order; records lacking a file reference are excluded (the conversion is
total, so no error arises). -/
theorem toAlbum_keeps_exactly_file_tracks (ja : JSONAlbum) :
    ja.toAlbum.tracks
        = (ja.tracks.filter (fun jt => jt.file.isSome)).map JSONTrack.toTrack ∧
      ja.toAlbum.tracks.length = ja.tracks.countP (fun jt => jt.file.isSome) := by
  constructor
  · simpa [JSONAlbum.toAlbum] using toAlbumTrackLoop_eq ja.tracks
  · simp [JSONAlbum.toAlbum, toAlbumTrackLoop_eq, List.countP_eq_length_filter]

/-! ### Claim C2 -/

/-- **C2.** The resolved release date follows the precedence: top-level date,
else nested declared release date, else nested publish date, else the zero
(unknown) date; in particular when both a top-level and a nested declared
date are present the top-level one wins, and a nested declared date alone
resolves to that date. -/
theorem resolveReleaseDate_precedence (ja : JSONAlbum) :
    ja.resolveReleaseDate = specResolvedDate ja ∧
      (∀ d d', ja.releaseDate = some d →
        ja.albumData.bind JSONAlbumData.releaseDate = some d' →
        ja.resolveReleaseDate = d) ∧
      (∀ d', ja.releaseDate = none →
        ja.albumData.bind JSONAlbumData.releaseDate = some d' →
        ja.resolveReleaseDate = d') := by
  refine ⟨?_, ?_, ?_⟩
  · rcases ja with ⟨ad, artID, artist, rd, tracks⟩
    rcases rd with _ | d
    · rcases ad with _ | ⟨t, adr, adp⟩
      · rfl
      · rcases adr with _ | d'
        · rcases adp with _ | d'' <;> rfl
        · rfl
    · rfl
  · intro d d' hd _
    simp [JSONAlbum.resolveReleaseDate, hd]
  · intro d' hd hd'
    rcases ja with ⟨ad, artID, artist, rd, tracks⟩
    rcases ad with _ | ⟨t, adr, adp⟩
    · simp at hd'
    · simp at hd hd'
      simp [JSONAlbum.resolveReleaseDate, hd, hd']

/-- Witness for C2 at a concrete record: only the nested declared date is
present and it is the resolved date. -/
theorem resolveReleaseDate_precedence_witness :
    (JSONAlbum.mk (some ⟨"T", some ⟨2020, 5, 6⟩, some ⟨2021, 1, 2⟩⟩) none "A" none
        []).resolveReleaseDate = ⟨2020, 5, 6⟩ := by
  exact (resolveReleaseDate_precedence _).2.2 ⟨2020, 5, 6⟩ rfl rfl

/-! ## Go download package: `internal/download`

The `Manager` performs HTTP and filesystem effects; these are modelled by
explicit environments of outcome oracles.  The two bounded worker pools are
modelled by sequential traversal of the album and track lists: no claim
below depends on the interleaving of the event stream, and `errgroup.Wait`
returning the first non-nil goroutine error is modelled by `findSome?` over
the per-album results.  Context cancellation is outside this model. -/

/-- The `config.Settings` fields the download manager reads
(`internal/config/settings.go`).  `float64` values are modelled over `ℚ`. -/
structure Settings where
  downloadMaxRetries : Nat
  downloadRetryCooldown : ℚ
  downloadRetryExponent : ℚ
  allowedFileSizeDifference : ℚ
  saveCoverArtInFolder : Bool
  saveCoverArtInTags : Bool
  createPlaylist : Bool
  modifyTags : Bool
deriving Repr

/-- The corresponding fields of `config.DefaultSettings`. -/
def defaultSettings : Settings :=
  { downloadMaxRetries := 7
    downloadRetryCooldown := 1/5
    downloadRetryExponent := 4
    allowedFileSizeDifference := 1/20
    saveCoverArtInFolder := false
    saveCoverArtInTags := true
    createPlaylist := false
    modifyTags := true }

/-- Model of `download.ProgressLevel`. -/
inductive ProgressLevel where
  | info
  | verbose
  | warning
  | error
  | success
deriving DecidableEq, Repr

/-- Model of `download.ProgressEvent`. -/
structure ProgressEvent where
  message : String
  level : ProgressLevel
deriving DecidableEq, Repr

/-- The distinct non-nil error values the modelled manager can return. -/
inductive DlError where
  | mkdirFailed
  | transport
deriving DecidableEq, Repr

/-- The skip-existing decision of `Manager.downloadTrack`
(`manager.go` lines 384-396): `localFileSize` is the `os.Stat` result
(`none` when stat fails), `probedSize` the `GetFileSize` result whose error
is discarded (a failed probe yields size 0 and hence no skip). -/
def skipsExisting (allowedDiff : ℚ) (localFileSize probedSize : Option Int) : Bool :=
  match localFileSize with
  | none => false
  | some localSize =>
    let expectedSize := probedSize.getD 0
    if 0 < expectedSize then
      decide (|((localSize : ℚ) - (expectedSize : ℚ)) / (expectedSize : ℚ)| ≤ allowedDiff)
    else false

/-- Outcome of the retry loop of `Manager.downloadTrack`: number of
attempts made, the waits issued by `waitForRetry` (in seconds, in order),
and whether the final `err` was non-nil. -/
structure RetryRun where
  attempts : Nat
  waits : List ℚ
  failed : Bool
deriving DecidableEq, Repr

/-- The loop `for tries := 0; tries < maxRetries; tries++` of
`Manager.downloadTrack` together with `Manager.waitForRetry`: each failed
attempt is followed by a wait of `cooldown * exponent ^ tries` seconds.
The base case is reached with `tries ≠ 0` exactly when the previous (last)
attempt failed, i.e. `err` is still non-nil. -/
def retryLoopFrom (cooldown exponent : ℚ) (maxRetries : Nat) (attemptFails : Nat → Bool)
    (tries : Nat) : RetryRun :=
  if h : tries < maxRetries then
    if attemptFails tries then
      let r := retryLoopFrom cooldown exponent maxRetries attemptFails (tries + 1)
      ⟨r.attempts + 1, cooldown * exponent ^ tries :: r.waits, r.failed⟩
    else ⟨1, [], false⟩
  else ⟨0, [], tries != 0⟩
termination_by maxRetries - tries
decreasing_by omega

/-- The retry loop started at `tries = 0`. -/
def retryLoop (cooldown exponent : ℚ) (maxRetries : Nat) (attemptFails : Nat → Bool) : RetryRun :=
  retryLoopFrom cooldown exponent maxRetries attemptFails 0

/-- Per-track effect oracle: the `os.Stat` size of an existing destination
file, the `GetFileSize` probe, the per-attempt `DownloadFile` outcomes, and
whether `SaveTags` fails. -/
structure TrackEnv where
  localFileSize : Option Int
  probedSize : Option Int
  attemptFails : Nat → Bool
  tagFails : Bool

/-- Outcome of one `downloadTrack` call: its progress events, returned
error, and contribution to the `downloadedFiles` counter. -/
structure TrackRun where
  events : List ProgressEvent
  result : Option DlError
  completedFiles : Nat
deriving DecidableEq, Repr

/-- Model of `Manager.downloadTrack` (`manager.go` lines 383-425): skip an
existing file within tolerance (counted completed, no transfer), otherwise
retry up to `downloadMaxRetries`, each failed attempt emitting a warning and
waiting; exhaustion returns the transport error, success counts the file and
may emit a tagging warning. -/
def downloadTrackModel (s : Settings) (env : TrackEnv) (artworkPresent : Bool)
    (t : Track) : TrackRun :=
  if skipsExisting s.allowedFileSizeDifference env.localFileSize env.probedSize then
    { events := [⟨"Skipping existing: " ++ t.title, .verbose⟩]
      result := none
      completedFiles := 1 }
  else
    let r := retryLoop s.downloadRetryCooldown s.downloadRetryExponent
      s.downloadMaxRetries env.attemptFails
    let warns := (List.range r.waits.length).map (fun i =>
      ProgressEvent.mk ("Retry " ++ toString (i + 1) ++ "/" ++ toString s.downloadMaxRetries
        ++ " for " ++ t.title) .warning)
    if r.failed then
      { events := warns, result := some .transport, completedFiles := 0 }
    else
      let tagEvents :=
        if (s.modifyTags || (s.saveCoverArtInTags && artworkPresent)) && env.tagFails then
          [ProgressEvent.mk ("Error tagging " ++ t.title) .warning]
        else []
      { events := warns ++ tagEvents ++ [⟨"Downloaded: " ++ t.title, .verbose⟩]
        result := none
        completedFiles := 1 }

/-- Whether a track transfer eventually succeeds in environment `env`
(skipped as existing, or some attempt succeeds within the budget). -/
def trackSucceeds (s : Settings) (env : TrackEnv) : Bool :=
  (downloadTrackModel s env false ⟨1, "", 0, "", ""⟩).result.isNone

/-- Per-album effect oracle. -/
structure AlbumEnv where
  mkdirOk : Bool
  artworkAttemptFails : Nat → Bool
  playlistWriteOk : Bool
  trackEnv : Track → TrackEnv

/-- Outcome of one `downloadAlbum` call. -/
structure AlbumRun where
  events : List ProgressEvent
  result : Option DlError
  completedFiles : Nat
  successCount : Nat
deriving DecidableEq, Repr

/-- Model of `Manager.downloadArtwork`'s retry loop: no per-attempt events;
on success the file counter is incremented and a verbose event emitted. -/
def downloadArtworkModel (s : Settings) (attemptFails : Nat → Bool) (album : Album) :
    List ProgressEvent × Bool × Nat :=
  let r := retryLoop s.downloadRetryCooldown s.downloadRetryExponent
    s.downloadMaxRetries attemptFails
  if r.failed then ([], false, 0)
  else ([⟨"Downloaded artwork for " ++ album.title, .verbose⟩], true, 1)

/-- Model of `Manager.downloadAlbum` (`manager.go` lines 276-332): a failed
directory creation is reported and returned as the album task's error; the
per-track goroutines report their failures and return nil, so `g.Wait()`
yields nil and the album task returns nil whatever the track outcomes. -/
def downloadAlbumModel (s : Settings) (env : AlbumEnv) (album : Album) : AlbumRun :=
  if ¬ env.mkdirOk then
    { events := [⟨"Error creating directory", .error⟩]
      result := some .mkdirFailed
      completedFiles := 0
      successCount := 0 }
  else
    let artworkWanted := (s.saveCoverArtInTags || s.saveCoverArtInFolder) && album.hasArtwork
    let art := if artworkWanted then downloadArtworkModel s env.artworkAttemptFails album
      else ([], false, 0)
    let artEvents := if artworkWanted && !art.2.1 then
        art.1 ++ [⟨"Error downloading artwork for " ++ album.title, .warning⟩]
      else art.1
    let trackRuns := album.tracks.map (fun t =>
      let tr := downloadTrackModel s (env.trackEnv t) art.2.1 t
      (tr, if tr.result.isSome then
          tr.events ++ [ProgressEvent.mk ("Error downloading " ++ t.title) .error]
        else tr.events))
    let successCount := (trackRuns.map (fun p => if p.1.result.isNone then 1 else 0)).sum
    let playlistEvents := if s.createPlaylist then
        if env.playlistWriteOk then [⟨"Created playlist for " ++ album.title, .success⟩]
        else [⟨"Error creating playlist", .warning⟩]
      else []
    let finalEvent := if successCount = album.tracks.length then
        [⟨"Successfully downloaded album: " ++ album.title, .success⟩]
      else [⟨"Finished " ++ album.title ++ ", some tracks failed", .warning⟩]
    { events := artEvents ++ (trackRuns.map Prod.snd).flatten ++ playlistEvents ++ finalEvent
      result := none
      completedFiles := art.2.2 + (trackRuns.map (fun p => p.1.completedFiles)).sum
      successCount := successCount }

/-- Model of `Manager.StartDownloads` (`manager.go` lines 181-193): one
task per album under the outer errgroup; `g.Wait()` returns the first
non-nil error returned by an album task. -/
def startDownloadsModel (s : Settings) (env : Album → AlbumEnv) (albums : List Album) :
    List ProgressEvent × Option DlError :=
  let runs := albums.map (fun a => downloadAlbumModel s (env a) a)
  ((runs.map AlbumRun.events).flatten, runs.findSome? AlbumRun.result)

/-! ### Lemmas about the retry loop and the per-track model -/

theorem retryLoopFrom_all_fail (c e : ℚ) (maxRetries : Nat) (f : Nat → Bool)
    (hf : ∀ i, f i = true) :
    ∀ k tries, tries + k = maxRetries →
      retryLoopFrom c e maxRetries f tries
        = ⟨k, (List.range k).map (fun j => c * e ^ (tries + j)), maxRetries != 0⟩ := by
  intro k
  induction k with
  | zero =>
    intro tries htk
    rw [retryLoopFrom]
    have h1 : ¬ tries < maxRetries := by omega
    have h2 : tries = maxRetries := by omega
    simp [h1, h2]
  | succ k ih =>
    intro tries htk
    rw [retryLoopFrom]
    have h1 : tries < maxRetries := by omega
    have h2 : (tries + 1) + k = maxRetries := by omega
    have hw : (List.range (k + 1)).map (fun j => c * e ^ (tries + j))
        = (c * e ^ tries) :: (List.range k).map (fun j => c * e ^ (tries + 1 + j)) := by
      rw [List.range_succ_eq_map, List.map_cons, List.map_map]
      refine congrArg₂ List.cons (by rw [Nat.add_zero]) ?_
      refine List.map_congr_left fun j _ => ?_
      simp only [Function.comp_apply]
      congr 2
      omega
    simp only [h1, dif_pos, hf tries, if_pos, ih (tries + 1) h2, hw]

theorem retryLoop_all_fail (c e : ℚ) (maxRetries : Nat) (f : Nat → Bool)
    (hf : ∀ i, f i = true) :
    retryLoop c e maxRetries f
      = ⟨maxRetries, (List.range maxRetries).map (fun j => c * e ^ j), maxRetries != 0⟩ := by
  have h := retryLoopFrom_all_fail c e maxRetries f hf maxRetries 0 (by omega)
  simpa [retryLoop] using h

/-- The returned error of `downloadTrack` does not depend on the artwork
bytes or on the track metadata, only on the effect environment. -/
theorem downloadTrackModel_result_eq (s : Settings) (env : TrackEnv) (ap ap' : Bool)
    (t t' : Track) :
    (downloadTrackModel s env ap t).result = (downloadTrackModel s env ap' t').result := by
  simp only [downloadTrackModel]
  split
  · rfl
  · split <;> rfl

theorem downloadTrackModel_completed_eq (s : Settings) (env : TrackEnv) (ap ap' : Bool)
    (t t' : Track) :
    (downloadTrackModel s env ap t).completedFiles
      = (downloadTrackModel s env ap' t').completedFiles := by
  simp only [downloadTrackModel]
  split
  · rfl
  · split <;> rfl

theorem trackSucceeds_iff (s : Settings) (env : TrackEnv) (ap : Bool) (t : Track) :
    trackSucceeds s env = (downloadTrackModel s env ap t).result.isNone := by
  simp [trackSucceeds, downloadTrackModel_result_eq s env ap false t ⟨1, "", 0, "", ""⟩]

theorem sum_map_ite_one {α : Type} (l : List α) (p : α → Bool) :
    (l.map (fun x => if p x then 1 else 0)).sum = l.countP p := by
  induction l with
  | nil => rfl
  | cons a l ih => by_cases h : p a <;> simp [List.countP_cons, h, ih, Nat.add_comm]

theorem downloadAlbumModel_result (s : Settings) (env : AlbumEnv) (album : Album) :
    (downloadAlbumModel s env album).result
      = if env.mkdirOk then none else some .mkdirFailed := by
  by_cases h : env.mkdirOk <;> simp [downloadAlbumModel, h]

theorem downloadAlbumModel_successCount (s : Settings) (env : AlbumEnv) (album : Album)
    (h : env.mkdirOk = true) :
    (downloadAlbumModel s env album).successCount
      = album.tracks.countP (fun u => trackSucceeds s (env.trackEnv u)) := by
  simp only [downloadAlbumModel, h, Bool.not_true, not_false_eq_true, if_neg,
    Bool.true_eq_false, reduceIte, List.map_map]
  rw [← sum_map_ite_one album.tracks (fun u => trackSucceeds s (env.trackEnv u))]
  refine congrArg _ (List.map_congr_left ?_)
  intro u _
  simp only [Function.comp_apply]
  rw [trackSucceeds_iff s (env.trackEnv u)
    (if (s.saveCoverArtInTags || s.saveCoverArtInFolder) && album.hasArtwork then
        downloadArtworkModel s env.artworkAttemptFails album
      else ([], false, 0)).2.1 u]

/-! ### Claim C3 -/

/-- A concrete album and environment in which directory creation fails. -/
def c3Album : Album := ⟨"A", "T", "", GoTime.zero, []⟩

def c3Env : AlbumEnv :=
  { mkdirOk := false
    artworkAttemptFails := fun _ => false
    playlistWriteOk := true
    trackEnv := fun _ => ⟨none, none, fun _ => false, false⟩ }

/-- **C3 counterexample.** With a failing directory creation and no
cancellation, `StartDownloads` reports the failure through the event stream
*and* returns a non-nil error, contradicting the claim that per-release
failures never cause `StartDownloads` to return a non-nil error. -/
theorem startDownloads_mkdir_error_returned :
    (startDownloadsModel defaultSettings (fun _ => c3Env) [c3Album]).2
        = some DlError.mkdirFailed ∧
      (some DlError.mkdirFailed ≠ (none : Option DlError)) ∧
      ProgressEvent.mk "Error creating directory" ProgressLevel.error
        ∈ (startDownloadsModel defaultSettings (fun _ => c3Env) [c3Album]).1 := by
  refine ⟨rfl, by simp, ?_⟩
  simp [startDownloadsModel, downloadAlbumModel, c3Env]

/-- **C3 (amended).** Absent cancellation, `StartDownloads` returns nil if
and only if every release's destination directory was created successfully:
per-file failures are only reported, but a failure to create a release's
directory is returned by the album task and hence by `StartDownloads`. -/
theorem startDownloads_result_none_iff (s : Settings) (env : Album → AlbumEnv)
    (albums : List Album) :
    (startDownloadsModel s env albums).2 = none
      ↔ ∀ a ∈ albums, (env a).mkdirOk = true := by
  simp only [startDownloadsModel, List.findSome?_eq_none_iff, List.mem_map,
    forall_exists_index, and_imp, forall_apply_eq_imp_iff₂]
  constructor
  · intro h a ha
    have := h a ha
    rw [downloadAlbumModel_result] at this
    by_cases hm : (env a).mkdirOk
    · exact hm
    · simp [hm] at this
  · intro h a ha
    rw [downloadAlbumModel_result, if_pos (h a ha)]

/-- Witness for the amended C3: a single-album run with a succeeding
directory creation returns nil. -/
theorem startDownloads_result_none_iff_witness :
    (startDownloadsModel defaultSettings
        (fun _ => { c3Env with mkdirOk := true }) [c3Album]).2 = none := by
  refine (startDownloads_result_none_iff defaultSettings _ [c3Album]).2 ?_
  intro a _
  rfl

/-! ### Claim C4 -/

/-- **C4.** A track transfer failing on every attempt makes exactly
`DownloadMaxRetries` attempts, waits `cooldown * exponent ^ i` seconds after
the `i`-th failed attempt (with defaults 7 attempts and waits 0.2, 0.8,
3.2, ... seconds), and returns the transport error, which the album task
reports as a per-file error event while returning nil, the sibling tracks
of the album still being processed to completion. -/
theorem downloadTrack_retry_exhaustion (s : Settings) (env : TrackEnv) (t : Track)
    (hf : ∀ i, env.attemptFails i = true) (hmax : 0 < s.downloadMaxRetries)
    (hskip : skipsExisting s.allowedFileSizeDifference env.localFileSize env.probedSize
      = false) :
    (retryLoop s.downloadRetryCooldown s.downloadRetryExponent s.downloadMaxRetries
        env.attemptFails).attempts = s.downloadMaxRetries ∧
      (retryLoop s.downloadRetryCooldown s.downloadRetryExponent s.downloadMaxRetries
          env.attemptFails).waits
        = (List.range s.downloadMaxRetries).map
            (fun i => s.downloadRetryCooldown * s.downloadRetryExponent ^ i) ∧
      defaultSettings.downloadMaxRetries = 7 ∧
      (List.range defaultSettings.downloadMaxRetries).map
          (fun i => defaultSettings.downloadRetryCooldown
            * defaultSettings.downloadRetryExponent ^ i)
        = [1/5, 4/5, 16/5, 64/5, 256/5, 1024/5, 4096/5] ∧
      (∀ ap, (downloadTrackModel s env ap t).result = some DlError.transport) ∧
      (∀ (aenv : AlbumEnv) (album : Album), aenv.mkdirOk = true →
        (downloadAlbumModel s aenv album).result = none ∧
        (downloadAlbumModel s aenv album).successCount
          = album.tracks.countP (fun u => trackSucceeds s (aenv.trackEnv u))) := by
  have hrl := retryLoop_all_fail s.downloadRetryCooldown s.downloadRetryExponent
    s.downloadMaxRetries env.attemptFails hf
  refine ⟨by rw [hrl], by rw [hrl], rfl, ?_, ?_, ?_⟩
  · show (List.range 7).map _ = _
    norm_num [List.range_succ, defaultSettings]
  · intro ap
    have hfail : (retryLoop s.downloadRetryCooldown s.downloadRetryExponent
        s.downloadMaxRetries env.attemptFails).failed = true := by
      rw [hrl]
      simp only [bne_iff_ne, ne_eq]
      omega
    simp [downloadTrackModel, hskip, hfail]
  · intro aenv album hm
    exact ⟨by rw [downloadAlbumModel_result, if_pos hm],
      downloadAlbumModel_successCount s aenv album hm⟩

/-- Witness for C4: the default settings, an environment whose every
attempt fails, and a concrete track. -/
theorem downloadTrack_retry_exhaustion_witness :
    (retryLoop defaultSettings.downloadRetryCooldown defaultSettings.downloadRetryExponent
        defaultSettings.downloadMaxRetries (fun _ => true)).attempts = 7 ∧
      (retryLoop defaultSettings.downloadRetryCooldown defaultSettings.downloadRetryExponent
          defaultSettings.downloadMaxRetries (fun _ => true)).waits
        = [1/5, 4/5, 16/5, 64/5, 256/5, 1024/5, 4096/5] := by
  have h := downloadTrack_retry_exhaustion defaultSettings
    ⟨none, none, fun _ => true, false⟩ ⟨1, "x", 0, "", ""⟩
    (fun _ => rfl) (by decide) rfl
  refine ⟨h.1, ?_⟩
  rw [h.2.1, h.2.2.2.1]

/-! ### Claim C5 -/

/-- **C5.** For an existing destination file and a positive size probe, the
transfer is skipped (and counted as completed, with no transfer attempts)
iff the relative size difference is at most the allowed difference; with the
default 5% tolerance a file at +5% is skipped and one at +10% is not. -/
theorem skip_rule (allowedDiff : ℚ) (localSize expectedSize : Int)
    (hpos : 0 < expectedSize) :
    (skipsExisting allowedDiff (some localSize) (some expectedSize) = true ↔
        |(localSize : ℚ) - (expectedSize : ℚ)| / (expectedSize : ℚ) ≤ allowedDiff) ∧
      (∀ s env ap t,
        skipsExisting s.allowedFileSizeDifference env.localFileSize env.probedSize = true →
        (downloadTrackModel s env ap t).result = none ∧
          (downloadTrackModel s env ap t).completedFiles = 1 ∧
          (downloadTrackModel s env ap t).events
            = [⟨"Skipping existing: " ++ t.title, .verbose⟩]) ∧
      defaultSettings.allowedFileSizeDifference = 1/20 ∧
      skipsExisting defaultSettings.allowedFileSizeDifference (some 105) (some 100) = true ∧
      skipsExisting defaultSettings.allowedFileSizeDifference (some 110) (some 100) = false := by
  refine ⟨?_, ?_, rfl, by norm_num [skipsExisting, defaultSettings, abs_le],
    by norm_num [skipsExisting, defaultSettings, lt_abs]⟩
  · have he : (0 : ℚ) < (expectedSize : ℚ) := by exact_mod_cast hpos
    simp only [skipsExisting, Option.getD_some, hpos, if_pos, decide_eq_true_eq]
    rw [abs_div, abs_of_pos he]
  · intro s env ap t hsk
    simp [downloadTrackModel, hsk]

/-- Witness for C5 at probe size 100 and local size 105: within tolerance,
hence skipped. -/
theorem skip_rule_witness :
    (0 : Int) < 100 ∧
      (skipsExisting defaultSettings.allowedFileSizeDifference (some 105) (some 100) = true ↔
        |((105 : Int) : ℚ) - ((100 : Int) : ℚ)| / ((100 : Int) : ℚ)
          ≤ defaultSettings.allowedFileSizeDifference) :=
  ⟨by decide, (skip_rule defaultSettings.allowedFileSizeDifference 105 100 (by decide)).1⟩

/-! ### Claim C10: `Manager.Initialize` -/

/-- `strings.Split(input, "\n")` over character lists. -/
def splitOnNL : List Char → List (List Char)
  | [] => [[]]
  | c :: cs =>
    match splitOnNL cs with
    | [] => [[c]]
    | x :: xs => if c = '\n' then [] :: x :: xs else (c :: x) :: xs

/-- The ASCII fragment of Go `unicode.IsSpace` (`strings.TrimSpace`). -/
def isSpaceChar (c : Char) : Bool :=
  c = ' ' || c = '\t' || c = '\n' || c = '\r' || c = '\x0b' || c = '\x0c'

/-- `strings.TrimSpace` over character lists (ASCII whitespace). -/
def trimChars (l : List Char) : List Char :=
  ((l.dropWhile isSpaceChar).reverse.dropWhile isSpaceChar).reverse

/-- Model of `Manager.parseInputURLs` (`manager.go` lines 210-220): split on
newlines, trim whitespace, keep non-empty lines starting with `http://` or
`https://`. -/
def parseInputURLsCL (input : List Char) : List (List Char) :=
  ((splitOnNL input).map trimChars).filter
    (fun line => line ≠ [] &&
      ("http://".toList.isPrefixOf line || "https://".toList.isPrefixOf line))

/-- `Manager.parseInputURLs` on `String`. -/
def parseInputURLs (input : String) : List String :=
  (parseInputURLsCL input.toList).map (fun l => (⟨l⟩ : String))

/-- Effect oracle for `Manager.Initialize`: the outcome of
`Manager.getAlbumURLs` for an input URL, of `httpClient.GetString` for an
album URL, and of `parser.ParseAlbumPage` for a page. -/
structure InitEnv where
  albumURLsFor : String → Except String (List String)
  fetchPage : String → Except String String
  parsePage : String → Except String Album

/-- The first loop of `Manager.Initialize`: expand each input URL, reporting
an error-level event and skipping the URL on failure. -/
def initPhase1 (env : InitEnv) : List String → List ProgressEvent × List String
  | [] => ([], [])
  | u :: rest =>
    let r := initPhase1 env rest
    match env.albumURLsFor u with
    | .error e =>
      (ProgressEvent.mk ("Error getting albums from " ++ u ++ ": " ++ e) .error :: r.1, r.2)
    | .ok us => (r.1, us ++ r.2)

/-- The second loop of `Manager.Initialize`: fetch and parse each album URL,
reporting an error-level event and skipping the URL on failure. -/
def initPhase2 (env : InitEnv) : List String → List ProgressEvent × List Album
  | [] => ([], [])
  | au :: rest =>
    let r := initPhase2 env rest
    let fetching := ProgressEvent.mk ("Fetching album info: " ++ au) .verbose
    match env.fetchPage au with
    | .error e =>
      (fetching :: ProgressEvent.mk ("Error fetching " ++ au ++ ": " ++ e) .error :: r.1, r.2)
    | .ok html =>
      match env.parsePage html with
      | .error e =>
        (fetching :: ProgressEvent.mk ("Error parsing " ++ au ++ ": " ++ e) .error :: r.1, r.2)
      | .ok album =>
        (fetching :: ProgressEvent.mk ("Found album: " ++ album.artist ++ " - " ++ album.title)
            .info :: r.1,
          album :: r.2)

/-- Model of `Manager.Initialize` (`manager.go` lines 141-178).  The final
`calculateTotals` pass emits no events and affects only the byte counters,
which are outside this model.  The function ends with `return nil`: the
error component is always `none`. -/
def initializeModel (env : InitEnv) (input : String) :
    List ProgressEvent × List Album × Option String :=
  let urls := parseInputURLs input
  let p1 := initPhase1 env urls
  let p2 := initPhase2 env p1.2
  (p1.1 ++ p2.1, p2.2, none)

theorem initPhase2_albums (env : InitEnv) (aurls : List String) :
    (initPhase2 env aurls).2 = aurls.filterMap (fun au =>
      match env.fetchPage au with
      | .error _ => none
      | .ok html =>
        match env.parsePage html with
        | .error _ => none
        | .ok album => some album) := by
  induction aurls with
  | nil => rfl
  | cons au rest ih =>
    simp only [initPhase2, List.filterMap_cons]
    rcases hf : env.fetchPage au with e | html
    · simpa [hf] using ih
    · rcases hp : env.parsePage html with e | album
      · simpa [hf, hp] using ih
      · simpa [hf, hp] using ih

theorem initPhase1_error_event (env : InitEnv) (urls : List String) (u : String)
    (e : String) (hu : u ∈ urls) (he : env.albumURLsFor u = .error e) :
    ProgressEvent.mk ("Error getting albums from " ++ u ++ ": " ++ e) .error
      ∈ (initPhase1 env urls).1 := by
  induction urls with
  | nil => cases hu
  | cons v rest ih =>
    rcases List.mem_cons.1 hu with h | h
    · subst h
      simp [initPhase1, he]
    · rcases hv : env.albumURLsFor v with e' | us <;> simp [initPhase1, hv, ih h]

/-- **C10.** `Manager.Initialize` returns nil for every input: a URL whose
discography lookup fails is skipped with an error-level event, the album
list holds exactly the URLs that fetched and parsed successfully, and no
error is ever returned — including when the input holds no URLs at all. -/
theorem initialize_never_errors (env : InitEnv) (input : String) :
    (initializeModel env input).2.2 = none ∧
      (initializeModel env input).2.1
        = (initPhase1 env (parseInputURLs input)).2.filterMap (fun au =>
            match env.fetchPage au with
            | .error _ => none
            | .ok html =>
              match env.parsePage html with
              | .error _ => none
              | .ok album => some album) ∧
      (∀ u ∈ parseInputURLs input, ∀ e, env.albumURLsFor u = .error e →
        ProgressEvent.mk ("Error getting albums from " ++ u ++ ": " ++ e) .error
          ∈ (initializeModel env input).1) ∧
      parseInputURLs "" = [] := by
  refine ⟨rfl, initPhase2_albums env _, ?_, rfl⟩
  intro u hu e he
  simp only [initializeModel, List.mem_append]
  exact Or.inl (initPhase1_error_event env _ u e hu he)

/-- Witness for C10: an environment whose every lookup fails and an input
with one URL still initializes with no returned error. -/
theorem initialize_never_errors_witness :
    (initializeModel
        ⟨fun _ => .error "boom", fun _ => .error "down", fun _ => .error "bad"⟩
        "https://a.bandcamp.com").2.2 = none ∧
      ProgressEvent.mk "Error getting albums from https://a.bandcamp.com: boom"
          ProgressLevel.error
        ∈ (initializeModel
            ⟨fun _ => .error "boom", fun _ => .error "down", fun _ => .error "bad"⟩
            "https://a.bandcamp.com").1 := by
  have h := initialize_never_errors
    ⟨fun _ => .error "boom", fun _ => .error "down", fun _ => .error "bad"⟩
    "https://a.bandcamp.com"
  refine ⟨h.1, ?_⟩
  refine h.2.2.1 "https://a.bandcamp.com" ?_ "boom" rfl
  have : parseInputURLs "https://a.bandcamp.com" = ["https://a.bandcamp.com"] := rfl
  rw [this]
  exact List.mem_singleton.2 rfl

/-! ## Go io package: `SanitizeFileName` (`internal/io/file.go` lines 90-106,
identical to `model.sanitizeFileName`)

The four regular-expression stages are embedded over character lists:
1. `[<>:"/\\|?*\x00-\x1f]` → `_`  (per-character map),
2. `\.+$` → `` (drop the trailing run of dots; RE2 `$` is end of text),
3. `\s+` → ` ` (collapse each maximal whitespace run, RE2 `\s = [\t\n\f\r ]`),
4. `strings.TrimRight(name, " ")`. -/

/-- The character class `[<>:"/\\|?*\x00-\x1f]`. -/
def invalidFileChar (c : Char) : Bool :=
  c = '<' || c = '>' || c = ':' || c = '"' || c = '/' || c = '\\' || c = '|' ||
    c = '?' || c = '*' || decide (c.toNat ≤ 0x1f)

/-- Stage 1 substitution: an invalid character becomes `'_'`. -/
def replaceInvalid (c : Char) : Char :=
  if invalidFileChar c then '_' else c

/-- Stage 2: `\.+$` → `` removes the maximal trailing run of dots. -/
def dropTrailingDots (l : List Char) : List Char :=
  (l.reverse.dropWhile (fun c => c = '.')).reverse

/-- RE2 `\s`: `[\t\n\f\r ]`. -/
def isGoWS (c : Char) : Bool :=
  c = '\t' || c = '\n' || c = '\x0c' || c = '\r' || c = ' '

/-- Stage 3: every maximal run of `\s` characters becomes one space (the
space is emitted at the last character of the run). -/
def collapseWS : List Char → List Char
  | [] => []
  | [c] => if isGoWS c then [' '] else [c]
  | c :: d :: cs =>
    if isGoWS c then
      (if isGoWS d then collapseWS (d :: cs) else ' ' :: collapseWS (d :: cs))
    else c :: collapseWS (d :: cs)

/-- Stage 4: `strings.TrimRight(name, " ")`. -/
def trimRightSpaces (l : List Char) : List Char :=
  (l.reverse.dropWhile (fun c => c = ' ')).reverse

/-- The sanitizer pipeline over character lists. -/
def sanitizeCL (l : List Char) : List Char :=
  trimRightSpaces (collapseWS (dropTrailingDots (l.map replaceInvalid)))

/-- Model of `SanitizeFileName`. -/
def SanitizeFileName (s : String) : String := ⟨sanitizeCL s.toList⟩

/-- No two adjacent whitespace characters. -/
def noDoubleWS : List Char → Bool
  | a :: b :: rest => (!(isGoWS a && isGoWS b)) && noDoubleWS (b :: rest)
  | _ => true

/-! ### Sanitizer lemmas -/

theorem dropWhile_head_not {α : Type} (p : α → Bool) (l : List α) (d : α)
    (h : (l.dropWhile p).head? = some d) : p d = false := by
  induction l with
  | nil => simp [List.dropWhile] at h
  | cons a as ih =>
    rw [List.dropWhile_cons] at h
    by_cases hp : p a
    · simp only [hp, if_pos] at h
      exact ih h
    · simp only [hp, if_neg, Bool.false_eq_true, not_false_eq_true, List.head?_cons,
        Option.some.injEq] at h
      subst h
      exact Bool.eq_false_iff.2 hp

theorem noDoubleWS_cons_nonws (a : Char) (r : List Char) (ha : isGoWS a = false)
    (hr : noDoubleWS r = true) : noDoubleWS (a :: r) = true := by
  cases r with
  | nil => rfl
  | cons b rest => simp [noDoubleWS, ha, hr]

theorem collapseWS_cons_head (d : Char) (cs : List Char) (hd : isGoWS d = false) :
    ∃ r, collapseWS (d :: cs) = d :: r := by
  cases cs with
  | nil => exact ⟨[], by simp [collapseWS, hd]⟩
  | cons e cs' => exact ⟨collapseWS (e :: cs'), by simp [collapseWS, hd]⟩

theorem collapseWS_noDouble (l : List Char) : noDoubleWS (collapseWS l) = true := by
  induction l with
  | nil => rfl
  | cons c cs ih =>
    cases cs with
    | nil => by_cases hc : isGoWS c <;> simp [collapseWS, hc, noDoubleWS]
    | cons d cs' =>
      by_cases hc : isGoWS c
      · by_cases hd : isGoWS d
        · rw [show collapseWS (c :: d :: cs') = collapseWS (d :: cs') by
            simp [collapseWS, hc, hd]]
          exact ih
        · rcases collapseWS_cons_head d cs' (Bool.eq_false_iff.2 hd) with ⟨r, hr⟩
          rw [show collapseWS (c :: d :: cs') = ' ' :: d :: r by
            simp [collapseWS, hc, hd, hr]]
          have ihr : noDoubleWS (d :: r) = true := hr ▸ ih
          simp [noDoubleWS, hd, ihr]
      · rw [show collapseWS (c :: d :: cs') = c :: collapseWS (d :: cs') by
          simp [collapseWS, hc]]
        exact noDoubleWS_cons_nonws c _ (Bool.eq_false_iff.2 hc) ih

theorem collapseWS_ws_is_space (l : List Char) :
    ∀ c ∈ collapseWS l, isGoWS c → c = ' ' := by
  induction l with
  | nil => intro c hc; simp [collapseWS] at hc
  | cons c cs ih =>
    cases cs with
    | nil =>
      intro x hx hwx
      by_cases hc : isGoWS c <;> simp [collapseWS, hc] at hx
      · exact hx
      · subst hx
        exact absurd hwx (by simp [hc])
    | cons d cs' =>
      intro x hx hwx
      by_cases hc : isGoWS c
      · by_cases hd : isGoWS d
        · rw [show collapseWS (c :: d :: cs') = collapseWS (d :: cs') by
            simp [collapseWS, hc, hd]] at hx
          exact ih x hx hwx
        · rw [show collapseWS (c :: d :: cs') = ' ' :: collapseWS (d :: cs') by
            simp [collapseWS, hc, hd]] at hx
          rcases List.mem_cons.1 hx with h | h
          · exact h
          · exact ih x h hwx
      · rw [show collapseWS (c :: d :: cs') = c :: collapseWS (d :: cs') by
          simp [collapseWS, hc]] at hx
        rcases List.mem_cons.1 hx with h | h
        · subst h
          exact absurd hwx (by simp [hc])
        · exact ih x h hwx

theorem collapseWS_subset (l : List Char) :
    ∀ c ∈ collapseWS l, c ∈ l ∨ c = ' ' := by
  induction l with
  | nil => intro c hc; simp [collapseWS] at hc
  | cons c cs ih =>
    cases cs with
    | nil =>
      intro x hx
      by_cases hc : isGoWS c <;> simp [collapseWS, hc] at hx
      · exact Or.inr hx
      · exact Or.inl (by simp [hx])
    | cons d cs' =>
      intro x hx
      by_cases hc : isGoWS c
      · by_cases hd : isGoWS d
        · rw [show collapseWS (c :: d :: cs') = collapseWS (d :: cs') by
            simp [collapseWS, hc, hd]] at hx
          rcases ih x hx with h | h
          · exact Or.inl (List.mem_cons_of_mem c h)
          · exact Or.inr h
        · rw [show collapseWS (c :: d :: cs') = ' ' :: collapseWS (d :: cs') by
            simp [collapseWS, hc, hd]] at hx
          rcases List.mem_cons.1 hx with h | h
          · exact Or.inr h
          · rcases ih x h with h' | h'
            · exact Or.inl (List.mem_cons_of_mem c h')
            · exact Or.inr h'
      · rw [show collapseWS (c :: d :: cs') = c :: collapseWS (d :: cs') by
          simp [collapseWS, hc]] at hx
        rcases List.mem_cons.1 hx with h | h
        · exact Or.inl (h ▸ List.mem_cons_self c (d :: cs'))
        · rcases ih x h with h' | h'
          · exact Or.inl (List.mem_cons_of_mem c h')
          · exact Or.inr h'

theorem collapseWS_of_no_ws (l : List Char) (h : ∀ c ∈ l, isGoWS c = false) :
    collapseWS l = l := by
  induction l with
  | nil => rfl
  | cons c cs ih =>
    have hc := h c (List.mem_cons_self c cs)
    cases cs with
    | nil => simp [collapseWS, hc]
    | cons d cs' =>
      rw [show collapseWS (c :: d :: cs') = c :: collapseWS (d :: cs') by
        simp [collapseWS, hc]]
      exact congrArg _ (ih fun x hx => h x (List.mem_cons_of_mem c hx))

theorem noDoubleWS_append_left (l₁ l₂ : List Char)
    (h : noDoubleWS (l₁ ++ l₂) = true) : noDoubleWS l₁ = true := by
  induction l₁ with
  | nil => rfl
  | cons a l ih =>
    cases l with
    | nil => rfl
    | cons b l' =>
      simp only [List.cons_append, noDoubleWS, Bool.and_eq_true] at h ⊢
      exact ⟨h.1, ih h.2⟩

theorem trimRightSpaces_append (l : List Char) :
    trimRightSpaces l ++ (l.reverse.takeWhile (fun c => c = ' ')).reverse = l := by
  rw [trimRightSpaces, ← List.reverse_append, List.takeWhile_append_dropWhile,
    List.reverse_reverse]

theorem trimRightSpaces_subset (l : List Char) :
    ∀ c ∈ trimRightSpaces l, c ∈ l := by
  intro c hc
  rw [trimRightSpaces, List.mem_reverse] at hc
  rw [← List.mem_reverse]
  exact (List.dropWhile_sublist _).subset hc

theorem trimRightSpaces_last (l : List Char) (d : Char)
    (h : (trimRightSpaces l).getLast? = some d) : d ≠ ' ' := by
  rw [trimRightSpaces, List.getLast?_reverse] at h
  have := dropWhile_head_not (fun c => c = ' ') l.reverse d h
  simpa using this

theorem dropTrailingDots_last (l : List Char) (d : Char)
    (h : (dropTrailingDots l).getLast? = some d) : d ≠ '.' := by
  rw [dropTrailingDots, List.getLast?_reverse] at h
  have := dropWhile_head_not (fun c => c = '.') l.reverse d h
  simpa using this

theorem dropTrailingDots_subset (l : List Char) :
    ∀ c ∈ dropTrailingDots l, c ∈ l := by
  intro c hc
  rw [dropTrailingDots, List.mem_reverse] at hc
  rw [← List.mem_reverse]
  exact (List.dropWhile_sublist _).subset hc

theorem replaceInvalid_valid (c : Char) : invalidFileChar (replaceInvalid c) = false := by
  rw [replaceInvalid]
  by_cases h : invalidFileChar c
  · rw [if_pos h]
    decide
  · rw [if_neg h]
    exact Bool.eq_false_iff.2 h

/-! ### Claim C6 -/

/-- **C6 counterexample.** The trailing-dot strip runs before whitespace
collapsing and trimming, so the input `"a. "` sanitizes to `"a."` — the
output ends with a dot, contradicting the claimed invariant. -/
theorem sanitize_trailing_dot_counterexample :
    SanitizeFileName "a. " = "a." ∧ (SanitizeFileName "a. ").toList.getLast? = some '.' := by
  exact ⟨rfl, rfl⟩

/-- **C6 (amended).** The sanitizer replaces every invalid character
(`<>:"/\|?*` and the controls 0x00-0x1f) with `'_'` — no invalid character
survives — its output never contains two adjacent whitespace characters and
never ends with whitespace, and it never ends with a dot *provided the input
contains no whitespace* (the trailing-dot strip runs before whitespace
trimming, so trailing dots exposed by trimming can remain, as in the
counterexample); the code's own documented examples hold. -/
theorem sanitize_invariants (s : String) :
    (∀ c ∈ (SanitizeFileName s).toList, invalidFileChar c = false) ∧
      noDoubleWS (SanitizeFileName s).toList = true ∧
      (∀ d, (SanitizeFileName s).toList.getLast? = some d → isGoWS d = false) ∧
      ((∀ c ∈ s.toList, isGoWS c = false) →
        ∀ d, (SanitizeFileName s).toList.getLast? = some d → d ≠ '.') ∧
      SanitizeFileName "Song: Part 1/2" = "Song_ Part 1_2" ∧
      SanitizeFileName "Track..." = "Track" ∧
      SanitizeFileName "Name   with  spaces" = "Name with spaces" := by
  have houtList : (SanitizeFileName s).toList = sanitizeCL s.toList := rfl
  refine ⟨?_, ?_, ?_, ?_, rfl, rfl, rfl⟩
  · intro c hc
    rw [houtList, sanitizeCL] at hc
    have h1 := trimRightSpaces_subset _ c hc
    rcases collapseWS_subset _ c h1 with h2 | h2
    · have h3 := dropTrailingDots_subset _ c h2
      rcases List.mem_map.1 h3 with ⟨a, _, ha⟩
      rw [← ha]
      exact replaceInvalid_valid a
    · subst h2
      decide
  · rw [houtList, sanitizeCL]
    have h := trimRightSpaces_append (collapseWS (dropTrailingDots (s.toList.map replaceInvalid)))
    exact noDoubleWS_append_left _ _ (h ▸ collapseWS_noDouble _)
  · intro d hd
    rw [houtList, sanitizeCL] at hd
    have hne := trimRightSpaces_last _ d hd
    have hmem : d ∈ trimRightSpaces (collapseWS (dropTrailingDots
        (s.toList.map replaceInvalid))) := List.mem_of_mem_getLast? hd
    have h1 := trimRightSpaces_subset _ d hmem
    exact Bool.eq_false_iff.2 fun hws => hne (collapseWS_ws_is_space _ d h1 hws)
  · intro hnows d hd
    rw [houtList, sanitizeCL] at hd
    have hmapped : ∀ c ∈ s.toList.map replaceInvalid, isGoWS c = false := by
      intro c hc
      rcases List.mem_map.1 hc with ⟨a, ha, hac⟩
      rw [← hac, replaceInvalid]
      by_cases h : invalidFileChar a
      · rw [if_pos h]; decide
      · rw [if_neg h]; exact hnows a ha
    have hdropped : ∀ c ∈ dropTrailingDots (s.toList.map replaceInvalid), isGoWS c = false :=
      fun c hc => hmapped c (dropTrailingDots_subset _ c hc)
    rw [collapseWS_of_no_ws _ hdropped] at hd
    have hnospace : ∀ c ∈ dropTrailingDots (s.toList.map replaceInvalid), ¬ c = ' ' := by
      intro c hc h
      have := hdropped c hc
      rw [h] at this
      simp [isGoWS] at this
    have htrim : trimRightSpaces (dropTrailingDots (s.toList.map replaceInvalid))
        = dropTrailingDots (s.toList.map replaceInvalid) := by
      rw [trimRightSpaces]
      rcases hrv : (dropTrailingDots (s.toList.map replaceInvalid)).reverse with _ | ⟨x, xs⟩
      · simp only [List.dropWhile_nil, List.reverse_nil]
        exact (List.reverse_eq_nil_iff.1 hrv).symm
      · have hx : ¬ x = ' ' := by
          refine hnospace x ?_
          rw [← List.mem_reverse, hrv]
          exact List.mem_cons_self x xs
        rw [List.dropWhile_cons, if_neg (by simp [hx]), ← hrv, List.reverse_reverse]
    rw [htrim] at hd
    exact dropTrailingDots_last _ d hd

/-- Witness for the amended C6 at the concrete input `"Track..."`. -/
theorem sanitize_invariants_witness :
    noDoubleWS (SanitizeFileName "Track...").toList = true ∧
      (∀ d, (SanitizeFileName "Track...").toList.getLast? = some d → d ≠ '.') := by
  have h := sanitize_invariants "Track..."
  refine ⟨h.2.1, h.2.2.2.1 (by decide)⟩

/-! ## Go bandcamp package: `Discography` (`internal/bandcamp/discography.go`)

The two regular expressions are embedded as explicit scanners with RE2
semantics specialised to the patterns:
* ``(?P<url>/(album|track)/.+?)("|&quot;)`` — a literal segment, a lazy
  non-empty run of non-newline characters, then the first terminator;
* ``href="(?P<url>/album/.+?)"`` — likewise with a single terminator.
Scanning is leftmost and non-overlapping, continuing after each match.
Go map iteration order is unspecified, so the dedup-by-map step is modelled
by an explicit iteration order `σ` over the first-seen-ordered distinct
list. -/

/-- The lazy `.+?` followed by the first matching terminator from `terms`
(tried in alternation order): returns the shortest non-empty non-newline
content such that a terminator follows, with the remainder after the
terminator. -/
def lazyContent (terms : List (List Char)) : List Char → Option (List Char × List Char)
  | [] => none
  | c :: cs =>
    if c = '\n' then none
    else
      match terms.findSome? (fun t =>
          if t.isPrefixOf cs then some (cs.drop t.length) else none) with
      | some rest => some ([c], rest)
      | none =>
        match lazyContent terms cs with
        | some p => some (c :: p.1, p.2)
        | none => none

def albumSeg : List Char := "/album/".toList

def trackSeg : List Char := "/track/".toList

/-- The `("|&quot;)` terminator alternation. -/
def quoteTerms : List (List Char) := ["\"".toList, "&quot;".toList]

/-- A match of ``/(album|track)/.+?("|&quot;)`` anchored at the head of
`l`: the captured group and the remainder after the terminator. -/
def tryMatchLink (l : List Char) : Option (List Char × List Char) :=
  if albumSeg.isPrefixOf l then
    (lazyContent quoteTerms (l.drop 7)).map (fun p => (albumSeg ++ p.1, p.2))
  else if trackSeg.isPrefixOf l then
    (lazyContent quoteTerms (l.drop 7)).map (fun p => (trackSeg ++ p.1, p.2))
  else none

/-- `FindAllStringSubmatch` for the release-link pattern: leftmost
non-overlapping matches, scanning by fuel (every step strictly shrinks the
remaining input, so `length + 1` fuel never runs out). -/
def linkScanFuel : Nat → List Char → List (List Char)
  | 0, _ => []
  | _ + 1, [] => []
  | fuel + 1, c :: cs =>
    match tryMatchLink (c :: cs) with
    | some p => p.1 :: linkScanFuel fuel p.2
    | none => linkScanFuel fuel cs

/-- All captured release-link groups of a page, in text order. -/
def linkScan (l : List Char) : List (List Char) := linkScanFuel (l.length + 1) l

def hrefAlbumStart : List Char := "href=\"/album/".toList

/-- A match of ``href="/album/.+?"`` anchored at the head of `l`. -/
def tryMatchHref (l : List Char) : Option (List Char × List Char) :=
  if hrefAlbumStart.isPrefixOf l then
    (lazyContent ["\"".toList] (l.drop 13)).map (fun p => (albumSeg ++ p.1, p.2))
  else none

def hrefScanFuel : Nat → List Char → List (List Char)
  | 0, _ => []
  | _ + 1, [] => []
  | fuel + 1, c :: cs =>
    match tryMatchHref (c :: cs) with
    | some p => p.1 :: hrefScanFuel fuel p.2
    | none => hrefScanFuel fuel cs

/-- All captured `href="/album/..."` groups of a page, in text order. -/
def hrefScan (l : List Char) : List (List Char) := hrefScanFuel (l.length + 1) l

/-- The distinct elements in first-seen order (the key set of the Go
`urlSet` map, canonically ordered). -/
def firstDedupAux (seen : List (List Char)) : List (List Char) → List (List Char)
  | [] => []
  | x :: xs =>
    if x ∈ seen then firstDedupAux seen xs
    else x :: firstDedupAux (x :: seen) xs

def firstDedup (l : List (List Char)) : List (List Char) := firstDedupAux [] l

/-- An iteration order over a list: the Go map is iterated in an
unspecified order, modelled by selecting indices. -/
def permuteBy (σ : List Nat) (l : List (List Char)) : List (List Char) :=
  σ.filterMap (fun i => l[i]?)

/-- The two error values of `discography.go`: `ErrNoAlbumFound` and the
"found multiple album URLs, expected exactly one" error. -/
inductive DiscoErr where
  | notFound
  | multiple
deriving DecidableEq, Repr

def discographyMarker : List Char := "div id=\"discography\"".toList

/-- Go `strings.Contains`: `needle` occurs as a contiguous segment. -/
def containsSub (needle : List Char) : List Char → Bool
  | [] => needle.isEmpty
  | c :: cs => needle.isPrefixOf (c :: cs) || containsSub needle cs

/-- Model of `Discography.isSingleAlbumArtist`. -/
def isSingleAlbumArtist (html : List Char) : Bool :=
  containsSub discographyMarker html

/-- Model of `Discography.getSingleAlbumURL`: collect the distinct
`href="/album/..."` anchors; none → `ErrNoAlbumFound`, exactly one → that
URL, more → the multiple-URLs error. -/
def getSingleAlbumURL (html : List Char) : Except DiscoErr (List Char) :=
  match firstDedup (hrefScan html) with
  | [] => .error .notFound
  | [u] => .ok u
  | _ => .error .multiple

/-- Model of `Discography.GetAlbumURLs`, parameterised by the Go map
iteration order `σ` of the multi-album branch. -/
def GetAlbumURLs (σ : List Nat) (html : List Char) : Except DiscoErr (List (List Char)) :=
  if isSingleAlbumArtist html then
    match getSingleAlbumURL html with
    | .error e => .error e
    | .ok u => .ok [u]
  else
    let ms := linkScan html
    if ms.isEmpty then .error .notFound
    else .ok (permuteBy σ (firstDedup ms))

/-! ### Dedup and permutation lemmas -/

theorem mem_firstDedupAux (l : List (List Char)) :
    ∀ (seen : List (List Char)) (y : List Char),
      y ∈ firstDedupAux seen l ↔ y ∈ l ∧ y ∉ seen := by
  induction l with
  | nil => intro seen y; simp [firstDedupAux]
  | cons x xs ih =>
    intro seen y
    by_cases hx : x ∈ seen
    · rw [firstDedupAux, if_pos hx, ih]
      constructor
      · rintro ⟨h1, h2⟩
        exact ⟨List.mem_cons_of_mem x h1, h2⟩
      · rintro ⟨h1, h2⟩
        rcases List.mem_cons.1 h1 with h | h
        · exact absurd (h ▸ hx) h2
        · exact ⟨h, h2⟩
    · rw [firstDedupAux, if_neg hx]
      constructor
      · intro h
        rcases List.mem_cons.1 h with h | h
        · exact ⟨h ▸ List.mem_cons_self x xs, h ▸ hx⟩
        · rcases (ih (x :: seen) y).1 h with ⟨h1, h2⟩
          exact ⟨List.mem_cons_of_mem x h1,
            fun hc => h2 (List.mem_cons_of_mem x hc)⟩
      · rintro ⟨h1, h2⟩
        rcases List.mem_cons.1 h1 with h | h
        · exact h ▸ List.mem_cons_self x _
        · by_cases hyx : y = x
          · exact hyx ▸ List.mem_cons_self x _
          · exact List.mem_cons_of_mem x ((ih (x :: seen) y).2
              ⟨h, fun hc => (List.mem_cons.1 hc).elim hyx h2⟩)

theorem nodup_firstDedupAux (l : List (List Char)) :
    ∀ seen : List (List Char), (firstDedupAux seen l).Nodup := by
  induction l with
  | nil => intro seen; exact List.nodup_nil
  | cons x xs ih =>
    intro seen
    by_cases hx : x ∈ seen
    · rw [firstDedupAux, if_pos hx]
      exact ih seen
    · rw [firstDedupAux, if_neg hx]
      refine List.nodup_cons.2 ⟨?_, ih (x :: seen)⟩
      intro hc
      exact ((mem_firstDedupAux xs (x :: seen) x).1 hc).2 (List.mem_cons_self x seen)

theorem mem_firstDedup (l : List (List Char)) (y : List Char) :
    y ∈ firstDedup l ↔ y ∈ l := by
  rw [firstDedup, mem_firstDedupAux]
  simp

theorem nodup_firstDedup (l : List (List Char)) : (firstDedup l).Nodup :=
  nodup_firstDedupAux l []

theorem filterMap_getElem_range {α : Type} (l : List α) :
    (List.range l.length).filterMap (fun i => l[i]?) = l := by
  induction l with
  | nil => rfl
  | cons a l ih =>
    rw [List.length_cons, List.range_succ_eq_map, List.filterMap_cons, List.filterMap_map]
    simp only [List.getElem?_cons_zero]
    refine congrArg _ ?_
    calc List.filterMap ((fun i => (a :: l)[i]?) ∘ Nat.succ) (List.range l.length)
        = List.filterMap (fun i => l[i]?) (List.range l.length) := by
          refine List.filterMap_congr ?_
          intro i _
          simp
      _ = l := ih

theorem permuteBy_perm (σ : List Nat) (l : List (List Char))
    (h : σ.Perm (List.range l.length)) : (permuteBy σ l).Perm l := by
  have := h.filterMap (fun i => l[i]?)
  rw [filterMap_getElem_range] at this
  exact this

/-! ### Claim C7 -/

def c7html : List Char := "x /album/a\" y /track/b\" /album/a\"".toList

/-- **C7 counterexample.** The multi-album branch deduplicates through a Go
map, whose iteration order is unspecified: for a page whose first-seen
distinct links are `/album/a` then `/track/b`, a valid map iteration order
returns them reversed, so `GetAlbumURLs` does not preserve first-seen
order. -/
theorem getAlbumURLs_order_counterexample :
    List.Perm [1, 0] (List.range (firstDedup (linkScan c7html)).length) ∧
      GetAlbumURLs [1, 0] c7html = .ok ["/track/b".toList, "/album/a".toList] ∧
      firstDedup (linkScan c7html) = ["/album/a".toList, "/track/b".toList] ∧
      ["/track/b".toList, "/album/a".toList] ≠ ["/album/a".toList, "/track/b".toList] := by
  refine ⟨by decide, rfl, rfl, by decide⟩

/-- **C7 (amended).** For a listing page without the single-release marker:
no matches → `ErrNoAlbumFound`; otherwise, for any iteration order of the
dedup map, the result is the set of matched links without duplicates — the
first-seen-distinct links in *some unspecified* order (a permutation), not
necessarily first-seen order. -/
theorem getAlbumURLs_dedup_unordered (html : List Char) (σ : List Nat)
    (hm : isSingleAlbumArtist html = false) :
    (linkScan html = [] → GetAlbumURLs σ html = .error .notFound) ∧
      (σ.Perm (List.range (firstDedup (linkScan html)).length) →
        linkScan html ≠ [] →
        GetAlbumURLs σ html = .ok (permuteBy σ (firstDedup (linkScan html))) ∧
          (permuteBy σ (firstDedup (linkScan html))).Perm (firstDedup (linkScan html)) ∧
          (permuteBy σ (firstDedup (linkScan html))).Nodup ∧
          (∀ u, u ∈ permuteBy σ (firstDedup (linkScan html)) ↔ u ∈ linkScan html)) := by
  constructor
  · intro h
    rw [GetAlbumURLs, if_neg (by simp [hm])]
    simp [h]
  · intro hσ hne
    have hperm := permuteBy_perm σ (firstDedup (linkScan html)) hσ
    refine ⟨?_, hperm, hperm.nodup_iff.2 (nodup_firstDedup _), ?_⟩
    · rw [GetAlbumURLs, if_neg (by simp [hm])]
      simp [List.isEmpty_iff, hne]
    · intro u
      rw [hperm.mem_iff, mem_firstDedup]

/-- Witness for the amended C7 at the concrete page and the identity
iteration order. -/
theorem getAlbumURLs_dedup_unordered_witness :
    GetAlbumURLs [0, 1] c7html
      = .ok (permuteBy [0, 1] (firstDedup (linkScan c7html))) := by
  refine ((getAlbumURLs_dedup_unordered c7html [0, 1] (by decide)).2 (by decide)
    (by decide)).1

/-! ### Claim C8 -/

def c8html : List Char := "<div id=\"discography\"></div>".toList

/-- **C8 counterexample.** A page with the single-release marker and *zero*
matching anchors fails with `ErrNoAlbumFound` (NotFound), not with the
Ambiguous (multiple-URLs) error the claim asserts. -/
theorem getSingleAlbum_zero_matches_notFound :
    GetAlbumURLs [] c8html = .error .notFound ∧ DiscoErr.notFound ≠ DiscoErr.multiple := by
  refine ⟨rfl, by decide⟩

/-- **C8 (amended).** For a listing page with the single-release marker:
exactly one distinct matching anchor → that URL; more than one → the
Ambiguous (multiple-URLs) error; zero → the NotFound error (not
Ambiguous). -/
theorem getSingleAlbum_cases (html : List Char) (σ : List Nat)
    (hm : isSingleAlbumArtist html = true) :
    (firstDedup (hrefScan html) = [] → GetAlbumURLs σ html = .error .notFound) ∧
      (∀ u, firstDedup (hrefScan html) = [u] → GetAlbumURLs σ html = .ok [u]) ∧
      (2 ≤ (firstDedup (hrefScan html)).length →
        GetAlbumURLs σ html = .error .multiple) := by
  refine ⟨?_, ?_, ?_⟩
  · intro h
    rw [GetAlbumURLs, if_pos hm, getSingleAlbumURL, h]
  · intro u h
    rw [GetAlbumURLs, if_pos hm, getSingleAlbumURL, h]
  · intro h
    rw [GetAlbumURLs, if_pos hm, getSingleAlbumURL]
    rcases hfd : firstDedup (hrefScan html) with _ | ⟨a, _ | ⟨b, rest⟩⟩
    · rw [hfd] at h; simp at h
    · rw [hfd] at h; simp at h
    · rfl

/-- Witness for the amended C8: a marker page with exactly one anchor
resolves to that URL. -/
theorem getSingleAlbum_cases_witness :
    GetAlbumURLs [] "div id=\"discography\" href=\"/album/x\"".toList
      = .ok ["/album/x".toList] := by
  refine ((getSingleAlbum_cases _ [] (by decide)).2.1 "/album/x".toList (by decide))

/-! ## `fixJSON` (`internal/bandcamp/parser.go` lines 246-251)

`regexp.MustCompile(`...`).ReplaceAllString(albumData, "${1}${2}")` for the
pattern ``(url: ".+)" \+ "(.+",)``: RE2 leftmost matching with greedy `.+`
(longest first group, then longest second group), `.` excluding newline,
replacement splicing out the `" + "` connective.  The scan is non-
overlapping, continuing after each replaced match. -/

def urlKeyStart : List Char := "url: \"".toList

def plusConnective : List Char := "\" + \"".toList

def quoteComma : List Char := "\",".toList

/-- Greedy second group: the largest `j ≥ 1` such that the first `j`
characters are non-newline and `",` follows. -/
def lastValidB (u : List Char) : Option Nat :=
  ((List.range (u.length + 1)).filter (fun j =>
    decide (1 ≤ j) && (u.take j).all (fun c => c != '\n') &&
      quoteComma.isPrefixOf (u.drop j))).max?

/-- Greedy first group: the largest `i ≥ 1` such that the first `i`
characters are non-newline, `" + "` follows, and a valid second group
follows that. -/
def lastValidA (t : List Char) : Option Nat :=
  ((List.range (t.length + 1)).filter (fun i =>
    decide (1 ≤ i) && (t.take i).all (fun c => c != '\n') &&
      plusConnective.isPrefixOf (t.drop i) &&
      (lastValidB (t.drop (i + 5))).isSome)).max?

/-- A match of the repair pattern anchored at the head of `l`: returns the
replacement `${1}${2}` text and the remainder after the match. -/
def urlFixAt (l : List Char) : Option (List Char × List Char) :=
  if urlKeyStart.isPrefixOf l then
    match lastValidA (l.drop 6) with
    | none => none
    | some i =>
      match lastValidB ((l.drop 6).drop (i + 5)) with
      | none => none
      | some j =>
        some (urlKeyStart ++ (l.drop 6).take i ++ ((l.drop 6).drop (i + 5)).take j
            ++ quoteComma,
          ((l.drop 6).drop (i + 5)).drop (j + 2))
  else none

/-- `ReplaceAllString` scan: leftmost matches, emitting the replacement and
continuing after the match (every step strictly shrinks the remaining
input, so `length + 1` fuel never runs out; exhausted fuel passes the rest
through). -/
def fixScanFuel : Nat → List Char → List Char
  | 0, l => l
  | _ + 1, [] => []
  | fuel + 1, c :: cs =>
    match urlFixAt (c :: cs) with
    | some p => p.1 ++ fixScanFuel fuel p.2
    | none => c :: fixScanFuel fuel cs

def fixJSONCL (l : List Char) : List Char := fixScanFuel (l.length + 1) l

/-- Model of `fixJSON`. -/
def fixJSON (s : String) : String := ⟨fixJSONCL s.toList⟩

/-! ### fixJSON lemmas -/

theorem containsSub_of_drop (needle l : List Char) (i : Nat)
    (h : needle.isPrefixOf (l.drop i) = true) : containsSub needle l = true := by
  induction l generalizing i with
  | nil =>
    simp only [List.drop_nil] at h
    cases needle with
    | nil => rfl
    | cons a as => simp [List.isPrefixOf] at h
  | cons c cs ih =>
    cases i with
    | zero =>
      rw [containsSub]
      rw [List.drop_zero] at h
      simp [h]
    | succ i' =>
      rw [containsSub]
      rw [List.drop_succ_cons] at h
      simp [ih i' h]

theorem urlFixAt_has_connective (l : List Char) (p : List Char × List Char)
    (h : urlFixAt l = some p) : containsSub plusConnective l = true := by
  rw [urlFixAt] at h
  by_cases hk : urlKeyStart.isPrefixOf l
  · rw [if_pos hk] at h
    rcases ha : lastValidA (l.drop 6) with _ | i
    · rw [ha] at h; cases h
    · have hi : i ∈ (List.range ((l.drop 6).length + 1)).filter (fun i =>
          decide (1 ≤ i) && ((l.drop 6).take i).all (fun c => c != '\n') &&
            plusConnective.isPrefixOf ((l.drop 6).drop i) &&
            (lastValidB ((l.drop 6).drop (i + 5))).isSome) := by
        refine List.max?_mem (fun a b => ?_) ha
        exact max_choice a b
      have hpred := (List.mem_filter.1 hi).2
      simp only [Bool.and_eq_true] at hpred
      have hpre := hpred.1.2
      rw [List.drop_drop] at hpre
      exact containsSub_of_drop plusConnective l (6 + i) hpre
  · rw [if_neg hk] at h
    cases h

theorem urlFixAt_has_urlKey (l : List Char) (p : List Char × List Char)
    (h : urlFixAt l = some p) : containsSub urlKeyStart l = true := by
  rw [urlFixAt] at h
  by_cases hk : urlKeyStart.isPrefixOf l
  · exact containsSub_of_drop urlKeyStart l 0 (by simpa using hk)
  · rw [if_neg hk] at h
    cases h

theorem fixScanFuel_id_of_no_connective (fuel : Nat) (l : List Char)
    (h : containsSub plusConnective l = false) : fixScanFuel fuel l = l := by
  induction fuel generalizing l with
  | zero => rfl
  | succ fuel ih =>
    cases l with
    | nil => rfl
    | cons c cs =>
      rw [containsSub, Bool.or_eq_false_iff] at h
      rcases hm : urlFixAt (c :: cs) with _ | p
      · rw [fixScanFuel, hm]
        exact congrArg _ (ih cs h.2)
      · have hc := urlFixAt_has_connective (c :: cs) p hm
        rw [containsSub] at hc
        rw [h.1, h.2] at hc
        simp at hc

theorem fixScanFuel_id_of_no_urlKey (fuel : Nat) (l : List Char)
    (h : containsSub urlKeyStart l = false) : fixScanFuel fuel l = l := by
  induction fuel generalizing l with
  | zero => rfl
  | succ fuel ih =>
    cases l with
    | nil => rfl
    | cons c cs =>
      rw [containsSub, Bool.or_eq_false_iff] at h
      rcases hm : urlFixAt (c :: cs) with _ | p
      · rw [fixScanFuel, hm]
        exact congrArg _ (ih cs h.2)
      · have hc := urlFixAt_has_urlKey (c :: cs) p hm
        rw [containsSub] at hc
        rw [h.1, h.2] at hc
        simp at hc

/-! ### Claim C9 -/

/-- **C9.** `fixJSON` splices a `url:` value written as two string literals
joined by `" + "` into one literal; any text not containing the `" + "`
connective — in particular an already-correct `url:` value — passes through
unchanged, as does any text not containing `url: "` at all, so unrelated
text with similar substrings is untouched. -/
theorem fixJSON_url_repair :
    fixJSON "url: \"http://a.com\" + \"/x\"," = "url: \"http://a.com/x\"," ∧
      (∀ l : List Char, containsSub plusConnective l = false → fixJSONCL l = l) ∧
      (∀ l : List Char, containsSub urlKeyStart l = false → fixJSONCL l = l) ∧
      fixJSON "url: \"http://a.com/x\"," = "url: \"http://a.com/x\"," ∧
      fixJSON "foo: \"a\" + \"b\"," = "foo: \"a\" + \"b\"," := by
  refine ⟨rfl, ?_, ?_, rfl, rfl⟩
  · intro l h
    exact fixScanFuel_id_of_no_connective _ l h
  · intro l h
    exact fixScanFuel_id_of_no_urlKey _ l h

/-- Witness for C9 at a concrete already-correct value. -/
theorem fixJSON_url_repair_witness :
    containsSub plusConnective "url: \"http://a.com/x\",".toList = false ∧
      fixJSONCL "url: \"http://a.com/x\",".toList = "url: \"http://a.com/x\",".toList := by
  refine ⟨by decide, fixJSON_url_repair.2.1 _ (by decide)⟩

end BandcampDL
